import Mathlib

/-!
Shallow embedding of parts of the `vscode-azuretools` repository:
  * `createTreeItemsWithErrorHandling` and `InvalidTreeItem`
    (ui/src/treeDataProvider helper),
  * `connectToGitHub.ts` (`connectToGitHub`, `getJsonRequest`,
    `createQuickPickFromJsons`, `parseLinkHeaderToGitHubLinkObject`,
    `getGitHubReposQuickPicks`),
  * `createAppService.ts` (wizard step assembly),
  * `AppServicePlanListStep` (`getPlans`, `isNameAvailable`, `getQuickPicks`).

JavaScript strings are embedded as `List Char` (or Lean `String` where no
index arithmetic is involved); JavaScript `any` error values are embedded
as `Nat` with JavaScript truthiness `e ≠ 0`, or as `String` when the code
only ever inspects the parsed error message.  Asynchronous code is
embedded as sequential state passing; thrown errors are `Except`.
-/

namespace JsStr

/-- `startsWith pat s` is true iff the char list `pat` is an initial
segment of `s` (the primitive used by the `indexOf` embedding). -/
def startsWith : List Char → List Char → Bool
  | [], _ => true
  | _ :: _, [] => false
  | c :: p, d :: s => c == d && startsWith p s

/-- Position of the first occurrence of `pat` in `s`, if any
(mirrors JavaScript `String.prototype.indexOf` when it succeeds). -/
def firstOccur (pat : List Char) : List Char → Option Nat
  | [] => if startsWith pat [] then some 0 else none
  | c :: t => if startsWith pat (c :: t) then some 0 else (firstOccur pat t).map (· + 1)

/-- JavaScript `s.indexOf(pat)`: index of first occurrence, `-1` if none. -/
def jsIndexOfL (s pat : List Char) : Int :=
  match firstOccur pat s with
  | some n => (n : Int)
  | none => -1

/-- JavaScript `s.indexOf(pat)` on Lean strings. -/
def jsIndexOf (s pat : String) : Int :=
  jsIndexOfL s.toList pat.toList

/-- `pat` occurs somewhere in `s` (JavaScript `s.indexOf(pat) > -1`). -/
def occursIn (pat s : List Char) : Bool :=
  (firstOccur pat s).isSome

/-- Worker for the `split` embedding: structural recursion on a fuel
argument (each cut strictly shortens the string, so `s.length + 1` fuel
is always enough for a non-empty separator). -/
def splitListAux (sep : List Char) : Nat → List Char → List (List Char)
  | 0, s => [s]
  | fuel + 1, s =>
    match firstOccur sep s with
    | none => [s]
    | some n => s.take n :: splitListAux sep fuel (s.drop (n + sep.length))

/-- JavaScript `s.split(sep)` for a non-empty separator: split at each
leftmost occurrence of `sep`.  (For `sep = []` JavaScript would explode
into characters; the code only ever splits on `", "`, so that corner is
mapped to `[s]`.) -/
def splitList (sep : List Char) (s : List Char) : List (List Char) :=
  if sep.length = 0 then [s] else splitListAux sep (s.length + 1) s

/-- JavaScript `s.substring(a, b)`: negative bounds clamp to `0`, bounds
above the length clamp to the length, and swapped bounds are exchanged. -/
def jsSubstringL (s : List Char) (a b : Int) : List Char :=
  let len : Int := (s.length : Int)
  let a2 : Nat := (max 0 (min a len)).toNat
  let b2 : Nat := (max 0 (min b len)).toNat
  (s.drop (min a2 b2)).take (max a2 b2 - min a2 b2)

/-- JavaScript truthiness of a `string | undefined` value. -/
def strTruthy : Option String → Bool
  | some s => !(s == "")
  | none => false

/-- JavaScript truthiness of a `string | undefined` value embedded as an
optional char list (used for URLs such as `requestOptions.nextLink`). -/
def charsTruthy : Option (List Char) → Bool
  | some s => !s.isEmpty
  | none => false

end JsStr

namespace AzExtTree

open JsStr

/-- JavaScript truthiness of the embedded `any` error values (`Nat`):
`0` plays the falsy values (`undefined`, `null`, `0`, `''`, ...). -/
def errTruthy (e : Nat) : Bool := e != 0

/-- The state of an `InvalidTreeItem` after construction: the constructor
stores `label`, the thrown `error`, `contextValue` and `description`
(defaulting to the localized `'Invalid'`). -/
structure InvalidTreeItem where
  label : String
  error : Nat
  contextValue : String
  description : String := "Invalid"
  deriving Repr, DecidableEq

/-- `InvalidTreeItem.hasMoreChildrenImpl` returns `false`. -/
def InvalidTreeItem.hasMoreChildrenImpl (_ : InvalidTreeItem) : Bool := false

/-- `InvalidTreeItem.isAncestorOfImpl` returns `false` (never display
invalid items in the tree picker). -/
def InvalidTreeItem.isAncestorOfImpl (_ : InvalidTreeItem) : Bool := false

/-- `InvalidTreeItem.loadMoreChildrenImpl` throws the stored error. -/
def InvalidTreeItem.loadMoreChildrenImpl (t : InvalidTreeItem) :
    Except Nat (List Unit) := Except.error t.error

/-- A tree item produced by `createTreeItemsWithErrorHandling`: either a
real node returned by the caller's `createTreeItem` (payload `α`; the
`InvalidTreeItem` class is private to the module, so caller-made items are
always real nodes), or a placeholder `InvalidTreeItem`. -/
inductive AzExtTreeItem (α : Type) where
  | real (a : α)
  | invalid (it : InvalidTreeItem)
  deriving Repr, DecidableEq

/-- The label a failed source element recovers: `getLabelOnError source`,
with its own exceptions swallowed (`catch { /* ignore */ }`). -/
def labelOnError {σ : Type} (getLabelOnError : σ → Except Nat (Option String))
    (source : σ) : Option String :=
  match getLabelOnError source with
  | Except.ok n => n
  | Except.error _ => none

/-- One pass of the `Promise.all` body of `createTreeItemsWithErrorHandling`,
embedded sequentially: threads the accumulated `treeItems` and the
`unknownError` slot (`none` = still `undefined`). -/
def createTreeItemsGo {σ α : Type}
    (invalidContextValue : String)
    (createTreeItem : σ → Except Nat (Option α))
    (getLabelOnError : σ → Except Nat (Option String)) :
    List σ → Option Nat → List (AzExtTreeItem α) × Option Nat
  | [], unknownError => ([], unknownError)
  | source :: rest, unknownError =>
    match createTreeItem source with
    | Except.ok (some item) =>
      let r := createTreeItemsGo invalidContextValue createTreeItem getLabelOnError rest unknownError
      (AzExtTreeItem.real item :: r.1, r.2)
    | Except.ok none =>
      createTreeItemsGo invalidContextValue createTreeItem getLabelOnError rest unknownError
    | Except.error error =>
      let name := labelOnError getLabelOnError source
      if strTruthy name then
        let r := createTreeItemsGo invalidContextValue createTreeItem getLabelOnError rest unknownError
        (AzExtTreeItem.invalid ⟨name.getD "", error, invalidContextValue, "Invalid"⟩ :: r.1, r.2)
      else if errTruthy error && unknownError == none then
        createTreeItemsGo invalidContextValue createTreeItem getLabelOnError rest (some error)
      else
        createTreeItemsGo invalidContextValue createTreeItem getLabelOnError rest unknownError

/-- The localized `'Some items could not be displayed'` message. -/
def cantShowItemsMsg : String := "Some items could not be displayed"

/-- `createTreeItemsWithErrorHandling`: builds the real / per-item invalid
nodes, then appends the single aggregate node when a (truthy) unknown
error was recorded. -/
def createTreeItemsWithErrorHandling {σ α : Type}
    (sourceArray : List σ)
    (invalidContextValue : String)
    (createTreeItem : σ → Except Nat (Option α))
    (getLabelOnError : σ → Except Nat (Option String)) :
    List (AzExtTreeItem α) :=
  let r := createTreeItemsGo invalidContextValue createTreeItem getLabelOnError sourceArray none
  match r.2 with
  | some e =>
    if errTruthy e then
      r.1 ++ [AzExtTreeItem.invalid ⟨cantShowItemsMsg, e, invalidContextValue, ""⟩]
    else r.1
  | none => r.1

/-- The first truthy error thrown by a `createTreeItem` call whose source
recovers no truthy label — the "first unknown error encountered" in
source order. -/
def firstUnknownError {σ α : Type}
    (createTreeItem : σ → Except Nat (Option α))
    (getLabelOnError : σ → Except Nat (Option String))
    (sourceArray : List σ) : Option Nat :=
  (sourceArray.filterMap (fun s =>
    match createTreeItem s with
    | Except.error e =>
      if !strTruthy (labelOnError getLabelOnError s) && errTruthy e then some e else none
    | _ => none)).head?

/-- Recognizes the aggregate node appended by
`createTreeItemsWithErrorHandling`: the only construction site producing
the `'Some items could not be displayed'` label together with the empty
description (per-item invalid nodes carry the `'Invalid'` description). -/
def isAggregateNode {α : Type} : AzExtTreeItem α → Bool
  | AzExtTreeItem.invalid iv => iv.label == cantShowItemsMsg && iv.description == ""
  | AzExtTreeItem.real _ => false

/-- Whether a tree item is a placeholder carrying the error `e`. -/
def carriesError {α : Type} : AzExtTreeItem α → Nat → Bool
  | AzExtTreeItem.invalid iv, e => iv.error == e
  | AzExtTreeItem.real _, _ => false

end AzExtTree

namespace ConnectToGitHub

open JsStr

/-- The local constant `relative = 'rel='` of
`parseLinkHeaderToGitHubLinkObject`. -/
def relative : List Char := "rel=".toList

/-- One iteration of the `for (const url of linkUrls)` loop: computes the
key `url.substring(url.indexOf(relative) + relative.length + 1, url.length - 1)`
and the value `url.substring(url.indexOf('<') + 1, url.indexOf('>'))`. -/
def parseLinkEntry (url : List Char) : List Char × List Char :=
  (jsSubstringL url (jsIndexOfL url relative + (relative.length : Int) + 1)
    ((url.length : Int) - 1),
   jsSubstringL url (jsIndexOfL url "<".toList + 1) (jsIndexOfL url ">".toList))

/-- `parseLinkHeaderToGitHubLinkObject`: splits the header on `', '` and
records the `linkMap[key] = value` assignments in iteration order (the
JavaScript object is embedded as its assignment list). -/
def parseLinkHeaderToGitHubLinkObject (linkHeader : List Char) :
    List (List Char × List Char) :=
  (splitList ", ".toList linkHeader).map parseLinkEntry

/-- Property read on the assignment-list embedding of a JavaScript object:
the last assignment to the key wins. -/
def jsObjGet (assignments : List (List Char × List Char)) (key : List Char) :
    Option (List Char) :=
  (assignments.reverse.find? (fun p => p.1 == key)).map (fun p => p.2)

/-- A GitHub HTTP response as `getJsonRequest` consumes it: the optional
`link` header and the already-JSON-parsed body. -/
structure GitHubResponse (β : Type) where
  link : Option (List Char)
  body : β

/-- The outcome of one `request(requestOptions)` call: a full response, or
a thrown error represented by its `parseError(...)` message. -/
inductive ReqResult (β : Type) where
  | success (resp : GitHubResponse β)
  | failure (parsedMessage : String)

/-- The mutable fields of `requestOptions` that `getJsonRequest` reads and
writes: the request `url` and the pagination `nextLink`. -/
structure RequestState where
  url : List Char
  nextLink : Option (List Char)
  deriving Repr, DecidableEq

/-- What one invocation of `getJsonRequest` leaves behind: the returned
body or thrown error, the updated `requestOptions.nextLink`, the action
context's `suppressErrorDisplay` flag, and whether
`showGitHubAuthPrompt` ran. -/
structure JsonRequestResult (β : Type) where
  result : Except String β
  nextLink : Option (List Char)
  suppressErrorDisplay : Bool
  authPromptShown : Bool

/-- The body of `getJsonRequest` applied to the outcome of its single
`request` call.  On success: if the response carries a (truthy) `link`
header, `requestOptions.nextLink` is set to `linkObject.next`; the parsed
body is returned.  On failure: if the parsed message contains
`'Bad credentials'`, the re-auth prompt is shown and error display is
suppressed; the error is rethrown either way. -/
def getJsonRequestOutcome {β : Type} (st : RequestState)
    (suppressErrorDisplay : Bool) (o : ReqResult β) : JsonRequestResult β :=
  match o with
  | ReqResult.success resp =>
    { result := Except.ok resp.body
      nextLink :=
        match resp.link with
        | some h =>
          if h.isEmpty then st.nextLink
          else jsObjGet (parseLinkHeaderToGitHubLinkObject h) "next".toList
        | none => st.nextLink
      suppressErrorDisplay := suppressErrorDisplay
      authPromptShown := false }
  | ReqResult.failure msg =>
    if jsIndexOf msg "Bad credentials" > -1 then
      { result := Except.error msg
        nextLink := st.nextLink
        suppressErrorDisplay := true
        authPromptShown := true }
    else
      { result := Except.error msg
        nextLink := st.nextLink
        suppressErrorDisplay := suppressErrorDisplay
        authPromptShown := false }

/-- `getJsonRequest` against a trace of pending request outcomes: performs
its single HTTP request by consuming the head of the trace and returns the
rest untouched (an empty trace — no answer to the one request — is
embedded as a plain network error). -/
def getJsonRequest {β : Type} (st : RequestState) (suppressErrorDisplay : Bool)
    (trace : List (ReqResult β)) : JsonRequestResult β × List (ReqResult β) :=
  match trace with
  | [] => ({ result := Except.error "no response"
             nextLink := st.nextLink
             suppressErrorDisplay := suppressErrorDisplay
             authPromptShown := false }, [])
  | o :: rest => (getJsonRequestOutcome st suppressErrorDisplay o, rest)

/-- What the token check at the top of `connectToGitHub` leaves behind. -/
structure TokenCheckOutcome where
  result : Except String Unit
  authPromptShown : Bool
  suppressErrorDisplay : Bool
  requestsMade : Nat

/-- The opening of `connectToGitHub`: reads the stored OAuth token; when it
is falsy (`undefined` or `''`), shows the re-auth prompt, sets
`context.suppressErrorDisplay`, and throws `'No oAuth2 Token.'` before any
GitHub request is made. -/
def connectToGitHubTokenCheck (oAuth2Token : Option String)
    (suppressErrorDisplay : Bool) : TokenCheckOutcome :=
  if strTruthy oAuth2Token then
    { result := Except.ok ()
      authPromptShown := false
      suppressErrorDisplay := suppressErrorDisplay
      requestsMade := 0 }
  else
    { result := Except.error "No oAuth2 Token."
      authPromptShown := true
      suppressErrorDisplay := true
      requestsMade := 0 }

/-- What the deployment tail of `connectToGitHub` leaves behind. -/
structure DeployOutcome where
  result : Except String Unit
  syncCalls : Nat

/-- The `catch` arm of the deployment tail: one `client.syncRepository()`
call; a sync error is swallowed exactly when its parsed message contains
`'"statusCode":200'`. -/
def syncAndSwallow (syncResult : Except String Unit) : DeployOutcome :=
  match syncResult with
  | Except.ok _ => { result := Except.ok (), syncCalls := 1 }
  | Except.error e =>
    if jsIndexOf e "\"statusCode\":200" == -1 then
      { result := Except.error e, syncCalls := 1 }
    else
      { result := Except.ok (), syncCalls := 1 }

/-- The `try { ... updateSourceControl ... } catch` tail of
`connectToGitHub`: `verifyNoRunFromPackageSetting` then
`client.updateSourceControl` run inside the `try`; any throw falls into
the `catch`, which attempts one resync. -/
def connectToGitHubDeploy (verifyResult updateResult syncResult : Except String Unit) :
    DeployOutcome :=
  match verifyResult with
  | Except.error _ => syncAndSwallow syncResult
  | Except.ok _ =>
    match updateResult with
    | Except.ok _ => { result := Except.ok (), syncCalls := 0 }
    | Except.error _ => syncAndSwallow syncResult

/-- A JavaScript JSON object with string-valued properties, embedded as a
property list (`createQuickPickFromJsons` only reads string properties). -/
abbrev JsObj : Type := List (String × String)

/-- JavaScript property read `json[key]`. -/
def jsonGet (json : JsObj) (key : String) : Option String :=
  (json.find? (fun p => p.1 == key)).map (fun p => p.2)

/-- The fields of an `IAzureQuickPickItem` that
`createQuickPickFromJsons` fills in. -/
structure QuickPickItem (α : Type) where
  label : String
  description : String
  data : α
  deriving Repr, DecidableEq

/-- `createQuickPickFromJsons`: skips objects with a falsy `label` value;
clears the `description` parameter permanently as soon as a non-skipped
object has a falsy value there; each pick's description is the object's
`description` value when the parameter is still set, `''` otherwise. -/
def createQuickPickFromJsons :
    List JsObj → String → Option String → List (QuickPickItem JsObj)
  | [], _, _ => []
  | json :: rest, label, description =>
    if !(strTruthy (jsonGet json label)) then
      createQuickPickFromJsons rest label description
    else
      let description2 :=
        if strTruthy description && !(strTruthy (jsonGet json (description.getD ""))) then
          none
        else description
      { label := (jsonGet json label).getD ""
        description :=
          if strTruthy description2 then (jsonGet json (description2.getD "")).getD ""
          else ""
        data := json } :: createQuickPickFromJsons rest label description2

/-- The value of the `description` parameter of
`createQuickPickFromJsons` after the loop has processed `jsons`. -/
def descParamAfter : List JsObj → String → Option String → Option String
  | [], _, description => description
  | json :: rest, label, description =>
    if !(strTruthy (jsonGet json label)) then
      descParamAfter rest label description
    else
      descParamAfter rest label
        (if strTruthy description && !(strTruthy (jsonGet json (description.getD ""))) then
          none
        else description)

/-- The `do { ... } while (requestOptions.nextLink && startTime + timeoutMs > Date.now())`
region of `getGitHubReposQuickPicks`: each pass issues `getJsonRequest`
against the server, concatenates the returned page onto `gitHubRepos`,
and redirects `requestOptions.url` to the truthy `nextLink`; the loop
re-enters while `nextLink` is truthy and the next `Date.now()` reading
(consumed from `clock`; an exhausted clock reads as past the deadline)
is below `startTime + timeoutMs`.  A failed request propagates out. -/
def gitHubReposLoop (server : List Char → ReqResult (List JsObj))
    (startTime timeoutMs : Nat) :
    List Nat → RequestState → List JsObj → Except String (List JsObj × RequestState)
  | clock, st, gitHubRepos =>
    let r := getJsonRequestOutcome st false (server st.url)
    match r.result with
    | Except.error e => Except.error e
    | Except.ok page =>
      let acc := gitHubRepos ++ page
      let st2 : RequestState :=
        { url := if charsTruthy r.nextLink then r.nextLink.getD [] else st.url
          nextLink := r.nextLink }
      if charsTruthy st2.nextLink then
        match clock with
        | t :: clockRest =>
          if startTime + timeoutMs > t then
            gitHubReposLoop server startTime timeoutMs clockRest st2 acc
          else Except.ok (acc, st2)
        | [] => Except.ok (acc, st2)
      else Except.ok (acc, st2)

/-- Join char-list parts with a separator (the `', '` between the
entries of a `Link` header). -/
def joinSep (sep : List Char) : List (List Char) → List Char
  | [] => []
  | [p] => p
  | p :: q :: rest => p ++ sep ++ joinSep sep (q :: rest)

/-- One `Link` header entry of the form `<URL>; rel="NAME"` — the entry
shape the spec describes, rendered from the pair `(URL, NAME)`. -/
def renderEntry (p : List Char × List Char) : List Char :=
  ('<' :: p.1 ++ ['>', ';', ' ', 'r', 'e', 'l', '=', '"']) ++ (p.2 ++ ['"'])

/-- A `Link` header of the form the spec describes: entries
`<URL>; rel="NAME"` separated by `', '`. -/
def renderLinkHeader (entries : List (List Char × List Char)) : List Char :=
  joinSep ", ".toList (entries.map renderEntry)

end ConnectToGitHub

namespace CreateAppService

open JsStr

/-- The `AppKind` enum as this code consumes it (`createAppService`
switches on `AppKind.functionapp` and `AppKind.app`). -/
inductive AppKind where
  | app
  | functionapp
  deriving Repr, DecidableEq

/-- The `WebsiteOS` string enum (`'linux'` / `'windows'`). -/
inductive WebsiteOS where
  | linux
  | windows
  deriving Repr, DecidableEq

/-- The fields of `IAppCreateOptions` that `createAppService` reads. -/
structure IAppCreateOptions where
  os : Option WebsiteOS := none
  runtime : Option String := none
  resourceGroup : Option String := none
  advancedCreation : Bool := false
  deriving Repr, DecidableEq

/-- One tag per wizard step class that `createAppService` can push. -/
inductive StepTag where
  | siteNameStep
  | resourceGroupListStep
  | siteOSStep
  | siteRuntimeStep
  | storageAccountListStep
  | locationListStep
  | appServicePlanListStep
  | resourceGroupCreateStep
  | appServicePlanCreateStep
  | siteCreateStep
  deriving Repr, DecidableEq

/-- The step assembly of `createAppService`: returns
`(promptSteps, executeSteps)` exactly as the pushes happen — the optional
`ResourceGroupCreateStep` for a passed-in resource group, `SiteNameStep`,
the `switch (appKind)` pushes (the empty `default` makes other kinds add
nothing), and finally `SiteCreateStep` onto `executeSteps`. -/
def createAppServiceSteps (appKind : AppKind) (createOptions : IAppCreateOptions) :
    List StepTag × List StepTag :=
  let executeSteps0 : List StepTag :=
    if strTruthy createOptions.resourceGroup then [StepTag.resourceGroupCreateStep] else []
  let promptSteps : List StepTag :=
    StepTag.siteNameStep ::
      (match appKind with
       | AppKind.functionapp =>
         [StepTag.resourceGroupListStep, StepTag.siteOSStep, StepTag.siteRuntimeStep,
          StepTag.storageAccountListStep, StepTag.locationListStep]
       | AppKind.app =>
         if createOptions.advancedCreation then
           [StepTag.resourceGroupListStep, StepTag.siteOSStep, StepTag.siteRuntimeStep,
            StepTag.appServicePlanListStep, StepTag.locationListStep]
         else
           [StepTag.locationListStep, StepTag.siteOSStep, StepTag.siteRuntimeStep])
  let executeSteps : List StepTag :=
    executeSteps0 ++
      (match appKind with
       | AppKind.app =>
         if createOptions.advancedCreation then []
         else [StepTag.resourceGroupCreateStep, StepTag.appServicePlanCreateStep]
       | _ => []) ++
      [StepTag.siteCreateStep]
  (promptSteps, executeSteps)

end CreateAppService

namespace PlanListStep

open JsStr
open CreateAppService

/-- The fields of an `AppServicePlan` that `AppServicePlanListStep` reads
(`nonNullProp` assertions are embedded by making the fields non-null). -/
structure AppServicePlan where
  name : String
  resourceGroup : String
  kind : String
  skuName : String
  geoRegion : String
  deriving Repr, DecidableEq

/-- The fields of the wizard context that `AppServicePlanListStep` reads
and writes; the memoized `plansTask` is embedded by its resolved value. -/
structure WizardContext where
  plansTask : Option (List AppServicePlan) := none
  newSiteOS : WebsiteOS := WebsiteOS.windows
  deriving Repr, DecidableEq

/-- What a call to `AppServicePlanListStep.getPlans` leaves behind:
the awaited plans, the updated context, and how many fresh clients /
listings it created. -/
structure GetPlansResult where
  plans : List AppServicePlan
  ctx : WizardContext
  listingsIssued : Nat
  deriving Repr, DecidableEq

/-- `AppServicePlanListStep.getPlans`: creates and stores the list-plans
task only when `wizardContext.plansTask === undefined`; `listResult` is
the plan list a fresh listing would produce. -/
def getPlans (listResult : List AppServicePlan) (wizardContext : WizardContext) :
    GetPlansResult :=
  match wizardContext.plansTask with
  | some plans => { plans := plans, ctx := wizardContext, listingsIssued := 0 }
  | none =>
    { plans := listResult
      ctx := { wizardContext with plansTask := some listResult }
      listingsIssued := 1 }

/-- `AppServicePlanListStep.isNameAvailable`: the name is available iff no
listed plan matches the resource group and name case-insensitively. -/
def isNameAvailable (listResult : List AppServicePlan)
    (wizardContext : WizardContext) (name resourceGroupName : String) :
    Bool × WizardContext :=
  let r := getPlans listResult wizardContext
  (!(r.plans.any (fun plan =>
      plan.resourceGroup.toLower == resourceGroupName.toLower &&
      plan.name.toLower == name.toLower)), r.ctx)

/-- The fields of the quick picks built by
`AppServicePlanListStep.getQuickPicks`. -/
structure PlanQuickPick where
  label : String
  description : String
  detail : String
  data : Option AppServicePlan
  deriving Repr, DecidableEq

/-- The pick a plan contributes to `getQuickPicks`, if its
linux-ness matches the new site's OS (`plan.kind` contains `'linux'`
exactly for Linux plans). -/
def planPick (newSiteOS : WebsiteOS) (plan : AppServicePlan) :
    Option PlanQuickPick :=
  let isNewSiteLinux : Bool := newSiteOS == WebsiteOS.linux
  let isPlanLinux : Bool := occursIn "linux".toList plan.kind.toLower.toList
  if isNewSiteLinux == isPlanLinux then
    some { label := plan.name
           description := plan.skuName ++ " (" ++ plan.geoRegion ++ ")"
           detail := plan.resourceGroup
           data := some plan }
  else none

/-- `AppServicePlanListStep.getQuickPicks`: the "Create new" pick followed
by one pick per OS-compatible listed plan. -/
def getQuickPicks (listResult : List AppServicePlan)
    (wizardContext : WizardContext) : List PlanQuickPick × WizardContext :=
  let createNew : PlanQuickPick :=
    { label := "$(plus) Create new App Service plan"
      description := ""
      detail := ""
      data := none }
  let r := getPlans listResult wizardContext
  (createNew :: r.plans.filterMap (planPick wizardContext.newSiteOS), r.ctx)

end PlanListStep

namespace Fixtures

/-- A `createTreeItem` callback that throws its source as the error. -/
def ctErr : Nat → Except Nat (Option Nat) := fun n => Except.error n

/-- A `getLabelOnError` callback that recovers no label. -/
def glNone : Nat → Except Nat (Option String) := fun _ => Except.ok none

/-- A `createTreeItem` callback: source `1` succeeds with item `10`,
everything else throws error `7`. -/
def ctMix : Nat → Except Nat (Option Nat) :=
  fun n => if n == 1 then Except.ok (some 10) else Except.error 7

/-- A `getLabelOnError` callback that always recovers the label `"L"`. -/
def glName : Nat → Except Nat (Option String) := fun _ => Except.ok (some "L")

/-- A JSON object carrying both a `label` and a `desc` property. -/
def jA : ConnectToGitHub.JsObj := [("label", "a"), ("desc", "x")]

/-- A JSON object with a `label` property but no `desc` property. -/
def jB : ConnectToGitHub.JsObj := [("label", "b")]

/-- Another JSON object carrying both a `label` and a `desc` property. -/
def jC : ConnectToGitHub.JsObj := [("label", "c"), ("desc", "y")]

/-- A JSON object with neither a `label` nor a `desc` property. -/
def jEmpty : ConnectToGitHub.JsObj := []

/-- The URL of the `i`-th page served by `chainServer`. -/
def chainUrl (i : Nat) : List Char := "p".toList ++ List.replicate i 'x'

/-- A GitHub server serving a chain of repository pages: each page's
`Link` header points to the next page via `rel="next"`, and the last
page's header carries only a `rel="first"` link. -/
def chainServer (pages : List (List ConnectToGitHub.JsObj)) (url : List Char) :
    ConnectToGitHub.ReqResult (List ConnectToGitHub.JsObj) :=
  let i := url.length - 1
  if url == chainUrl i then
    match pages[i]? with
    | some page =>
      ConnectToGitHub.ReqResult.success
        { link := some (ConnectToGitHub.renderLinkHeader
            (if i + 1 < pages.length then [(chainUrl (i + 1), "next".toList)]
             else [(chainUrl 0, "first".toList)]))
          body := page }
    | none => ConnectToGitHub.ReqResult.failure "not found"
  else ConnectToGitHub.ReqResult.failure "not found"

end Fixtures

open JsStr AzExtTree ConnectToGitHub CreateAppService PlanListStep Fixtures

/-- C9: every `InvalidTreeItem`, regardless of constructor arguments,
reports `hasMoreChildrenImpl` as `false`, reports `isAncestorOfImpl` as
`false` (so it never appears in the tree picker), and throws exactly the
error stored at construction when `loadMoreChildrenImpl` is invoked. -/
theorem C9_invalid_item_impls :
    ∀ (label : String) (error : Nat) (contextValue description : String),
      (InvalidTreeItem.mk label error contextValue description).hasMoreChildrenImpl = false ∧
      (InvalidTreeItem.mk label error contextValue description).isAncestorOfImpl = false ∧
      (InvalidTreeItem.mk label error contextValue description).loadMoreChildrenImpl =
        Except.error error := by
  intro label error contextValue description
  exact ⟨rfl, rfl, rfl⟩

/-- C6: `createAppService` assembles the prompt steps for
`AppKind.functionapp` in the fixed order `SiteNameStep`,
`ResourceGroupListStep`, `SiteOSStep`, `SiteRuntimeStep`,
`StorageAccountListStep`, `LocationListStep` (for every `createOptions`),
and for every `appKind` and `createOptions` the last execute step is
`SiteCreateStep`. -/
theorem C6_createAppService_step_order :
    (∀ createOptions : IAppCreateOptions,
      (createAppServiceSteps AppKind.functionapp createOptions).1 =
        [StepTag.siteNameStep, StepTag.resourceGroupListStep, StepTag.siteOSStep,
         StepTag.siteRuntimeStep, StepTag.storageAccountListStep, StepTag.locationListStep]) ∧
    (∀ (appKind : AppKind) (createOptions : IAppCreateOptions),
      (createAppServiceSteps appKind createOptions).2.getLast? =
        some StepTag.siteCreateStep) := by
  constructor
  · intro createOptions
    rfl
  · intro appKind createOptions
    cases appKind <;>
      cases h1 : strTruthy createOptions.resourceGroup <;>
        cases h2 : createOptions.advancedCreation <;>
          simp [createAppServiceSteps, h1, h2]

/-- C10: `AppServicePlanListStep.getPlans` is memoized on the wizard
context: after any first call, a subsequent call on the resulting context
returns the same plans without issuing a new listing (whatever a fresh
listing would have returned), and `isNameAvailable` and `getQuickPicks`
on that context observe exactly the memoized plan list. -/
theorem C10_getPlans_memoized :
    ∀ (listResult listResult2 : List AppServicePlan) (wizardContext : WizardContext)
      (name resourceGroupName : String),
      getPlans listResult2 (getPlans listResult wizardContext).ctx =
        { plans := (getPlans listResult wizardContext).plans
          ctx := (getPlans listResult wizardContext).ctx
          listingsIssued := 0 } ∧
      isNameAvailable listResult2 (getPlans listResult wizardContext).ctx name resourceGroupName =
        (!((getPlans listResult wizardContext).plans.any (fun plan =>
            plan.resourceGroup.toLower == resourceGroupName.toLower &&
            plan.name.toLower == name.toLower)),
         (getPlans listResult wizardContext).ctx) ∧
      getQuickPicks listResult2 (getPlans listResult wizardContext).ctx =
        ({ label := "$(plus) Create new App Service plan"
           description := ""
           detail := ""
           data := none } ::
          (getPlans listResult wizardContext).plans.filterMap
            (planPick (getPlans listResult wizardContext).ctx.newSiteOS),
         (getPlans listResult wizardContext).ctx) := by
  intro listResult listResult2 wizardContext name resourceGroupName
  cases h : wizardContext.plansTask <;>
    simp [getPlans, isNameAvailable, getQuickPicks, h]

/-- C2: when `updateSourceControl` throws inside the deployment `try`
block (with the preceding `verifyNoRunFromPackageSetting` having
succeeded), exactly one `syncRepository` call is attempted; the operation
completes normally if the sync succeeds or fails with a parsed message
containing `'"statusCode":200'`, and rethrows a sync error whose parsed
message does not contain that substring. -/
theorem C2_update_failure_sync_swallow :
    ∀ (u : String) (syncResult : Except String Unit),
      (connectToGitHubDeploy (Except.ok ()) (Except.error u) syncResult).syncCalls = 1 ∧
      (syncResult = Except.ok () →
        (connectToGitHubDeploy (Except.ok ()) (Except.error u) syncResult).result =
          Except.ok ()) ∧
      (∀ e, syncResult = Except.error e →
        jsIndexOf e "\"statusCode\":200" ≠ -1 →
        (connectToGitHubDeploy (Except.ok ()) (Except.error u) syncResult).result =
          Except.ok ()) ∧
      (∀ e, syncResult = Except.error e →
        jsIndexOf e "\"statusCode\":200" = -1 →
        (connectToGitHubDeploy (Except.ok ()) (Except.error u) syncResult).result =
          Except.error e) := by
  intro u syncResult
  refine ⟨?_, ?_, ?_, ?_⟩
  · cases syncResult with
    | ok v => rfl
    | error e => simp only [connectToGitHubDeploy, syncAndSwallow]; split <;> rfl
  · intro h; subst h; rfl
  · intro e h hidx; subst h
    simp [connectToGitHubDeploy, syncAndSwallow, hidx]
  · intro e h hidx; subst h
    simp [connectToGitHubDeploy, syncAndSwallow, hidx]

/-- Witness for C2: a failed `updateSourceControl` followed by a sync
error that mentions `"statusCode":200` is swallowed after exactly one
sync attempt. -/
theorem C2_update_failure_sync_swallow_witness :
    (connectToGitHubDeploy (Except.ok ()) (Except.error "update failed")
        (Except.error "Failed with \"statusCode\":200")).result = Except.ok () ∧
    (connectToGitHubDeploy (Except.ok ()) (Except.error "update failed")
        (Except.error "Failed with \"statusCode\":200")).syncCalls = 1 :=
  ⟨(C2_update_failure_sync_swallow "update failed"
      (Except.error "Failed with \"statusCode\":200")).2.2.1
      "Failed with \"statusCode\":200" rfl (by decide),
   (C2_update_failure_sync_swallow "update failed"
      (Except.error "Failed with \"statusCode\":200")).1⟩

/-- C7: `getJsonRequest` performs exactly one HTTP request per invocation
(one outcome consumed from the pending trace, the rest untouched) and on
any failure rethrows that first error to the caller. -/
theorem C7_getJsonRequest_one_request :
    ∀ (β : Type) (st : RequestState) (suppress : Bool) (o : ReqResult β)
      (rest : List (ReqResult β)),
      (getJsonRequest st suppress (o :: rest)).2 = rest ∧
      (∀ msg, o = ReqResult.failure msg →
        (getJsonRequest st suppress (o :: rest)).1.result = Except.error msg) := by
  intro β st suppress o rest
  refine ⟨rfl, ?_⟩
  intro msg h
  subst h
  simp only [getJsonRequest, getJsonRequestOutcome]
  split <;> rfl

/-- Witness for C7: a failing request consumes exactly one trace entry and
surfaces exactly its error. -/
theorem C7_getJsonRequest_one_request_witness :
    (getJsonRequest { url := [], nextLink := none } false
        [(ReqResult.failure "boom" : ReqResult Unit)]).2 = [] ∧
    (getJsonRequest { url := [], nextLink := none } false
        [(ReqResult.failure "boom" : ReqResult Unit)]).1.result =
      Except.error "boom" :=
  ⟨(C7_getJsonRequest_one_request Unit { url := [], nextLink := none } false
      (ReqResult.failure "boom") []).1,
   (C7_getJsonRequest_one_request Unit { url := [], nextLink := none } false
      (ReqResult.failure "boom") []).2 "boom" rfl⟩

/-- C5: a falsy stored OAuth token makes `connectToGitHub` show the
re-auth prompt, suppress error display, and throw before any GitHub
request; and a request failing with a parsed message containing
`'Bad credentials'` makes `getJsonRequest` show the prompt, suppress
error display, and still rethrow. -/
theorem C5_invalid_token_paths :
    (∀ (token : Option String) (suppress : Bool),
      strTruthy token = false →
        connectToGitHubTokenCheck token suppress =
          { result := Except.error "No oAuth2 Token."
            authPromptShown := true
            suppressErrorDisplay := true
            requestsMade := 0 }) ∧
    (∀ (β : Type) (st : RequestState) (suppress : Bool) (msg : String),
      jsIndexOf msg "Bad credentials" > -1 →
        getJsonRequestOutcome st suppress (ReqResult.failure msg : ReqResult β) =
          { result := Except.error msg
            nextLink := st.nextLink
            suppressErrorDisplay := true
            authPromptShown := true }) := by
  constructor
  · intro token suppress h
    simp [connectToGitHubTokenCheck, h]
  · intro β st suppress msg h
    simp [getJsonRequestOutcome, h]

theorem createTreeItemsGo_fst_indep {σ α : Type} (cv : String)
    (ct : σ → Except Nat (Option α)) (gl : σ → Except Nat (Option String)) :
    ∀ (src : List σ) (unk unk' : Option Nat),
      (createTreeItemsGo cv ct gl src unk).1 = (createTreeItemsGo cv ct gl src unk').1 := by
  intro src
  induction src with
  | nil => intro unk unk'; rfl
  | cons s rest ih =>
    intro unk unk'
    cases h : ct s with
    | ok o =>
      cases o with
      | some a =>
        simp only [createTreeItemsGo, h]
        exact congrArg (AzExtTreeItem.real a :: ·) (ih unk unk')
      | none =>
        simp only [createTreeItemsGo, h]
        exact ih unk unk'
    | error e =>
      simp only [createTreeItemsGo, h]
      by_cases hname : strTruthy (labelOnError gl s) = true
      · simp only [hname, if_true]
        exact congrArg _ (ih unk unk')
      · simp only [Bool.not_eq_true] at hname
        simp only [hname, Bool.false_eq_true, if_false]
        by_cases hc1 : (errTruthy e && unk == none) = true <;>
          by_cases hc2 : (errTruthy e && unk' == none) = true <;>
            simp only [hc1, hc2, Bool.not_eq_true] <;>
              exact ih _ _

theorem createTreeItemsGo_snd_some {σ α : Type} (cv : String)
    (ct : σ → Except Nat (Option α)) (gl : σ → Except Nat (Option String)) :
    ∀ (src : List σ) (e : Nat),
      (createTreeItemsGo cv ct gl src (some e)).2 = some e := by
  intro src
  induction src with
  | nil => intro e; rfl
  | cons s rest ih =>
    intro e
    cases h : ct s with
    | ok o =>
      cases o with
      | some a => simp only [createTreeItemsGo, h]; exact ih e
      | none => simp only [createTreeItemsGo, h]; exact ih e
    | error er =>
      simp only [createTreeItemsGo, h]
      by_cases hname : strTruthy (labelOnError gl s) = true
      · simp only [hname, if_true]; exact ih e
      · simp only [Bool.not_eq_true] at hname
        have hbeq : ((some e : Option Nat) == none) = false := rfl
        simp only [hname, Bool.false_eq_true, if_false, hbeq, Bool.and_false]
        exact ih e

theorem createTreeItemsGo_snd_none {σ α : Type} (cv : String)
    (ct : σ → Except Nat (Option α)) (gl : σ → Except Nat (Option String)) :
    ∀ src : List σ,
      (createTreeItemsGo cv ct gl src none).2 = firstUnknownError ct gl src := by
  intro src
  induction src with
  | nil => rfl
  | cons s rest ih =>
    cases h : ct s with
    | ok o =>
      cases o with
      | some a =>
        simp only [createTreeItemsGo, h, firstUnknownError, List.filterMap_cons] at *
        exact ih
      | none =>
        simp only [createTreeItemsGo, h, firstUnknownError, List.filterMap_cons] at *
        exact ih
    | error er =>
      by_cases hname : strTruthy (labelOnError gl s) = true
      · simp only [createTreeItemsGo, h, firstUnknownError, List.filterMap_cons,
          hname, if_true, Bool.not_true, Bool.false_and] at *
        exact ih
      · simp only [Bool.not_eq_true] at hname
        cases he : errTruthy er with
        | true =>
          simp only [createTreeItemsGo, h, firstUnknownError, List.filterMap_cons,
            hname, Bool.false_eq_true, if_false, he, Bool.not_false, Bool.true_and]
          have hb : ((none : Option Nat) == none) = true := rfl
          simp only [hb, Bool.and_true, if_true, List.head?_cons]
          exact createTreeItemsGo_snd_some cv ct gl rest er
        | false =>
          simp only [createTreeItemsGo, h, firstUnknownError, List.filterMap_cons,
            hname, Bool.false_eq_true, if_false, he, Bool.not_false, Bool.true_and,
            Bool.false_and] at *
          exact ih

theorem createTreeItemsGo_mem_real {σ α : Type} (cv : String)
    (ct : σ → Except Nat (Option α)) (gl : σ → Except Nat (Option String)) :
    ∀ (src : List σ) (unk : Option Nat) (s : σ) (a : α),
      s ∈ src → ct s = Except.ok (some a) →
      AzExtTreeItem.real a ∈ (createTreeItemsGo cv ct gl src unk).1 := by
  intro src
  induction src with
  | nil =>
    intro unk s a hmem
    cases hmem
  | cons s0 rest ih =>
    intro unk s a hmem hct
    rcases List.mem_cons.mp hmem with heq | hmem'
    · subst heq
      simp only [createTreeItemsGo, hct]
      exact List.mem_cons_self _ _
    · cases h : ct s0 with
      | ok o =>
        cases o with
        | some a0 =>
          simp only [createTreeItemsGo, h]
          exact List.mem_cons_of_mem _ (ih unk s a hmem' hct)
        | none =>
          simp only [createTreeItemsGo, h]
          exact ih unk s a hmem' hct
      | error er =>
        simp only [createTreeItemsGo, h]
        by_cases hname : strTruthy (labelOnError gl s0) = true
        · simp only [hname, if_true]
          exact List.mem_cons_of_mem _ (ih unk s a hmem' hct)
        · simp only [Bool.not_eq_true] at hname
          simp only [hname, Bool.false_eq_true, if_false]
          by_cases hc : (errTruthy er && unk == none) = true
          · simp only [hc, if_true]
            exact ih _ s a hmem' hct
          · simp only [hc, if_false]
            exact ih unk s a hmem' hct

theorem createTreeItemsGo_mem_invalid {σ α : Type} (cv : String)
    (ct : σ → Except Nat (Option α)) (gl : σ → Except Nat (Option String)) :
    ∀ (src : List σ) (unk : Option Nat) (s : σ) (e : Nat),
      s ∈ src → ct s = Except.error e →
      strTruthy (labelOnError gl s) = true →
      (AzExtTreeItem.invalid ⟨(labelOnError gl s).getD "", e, cv, "Invalid"⟩ : AzExtTreeItem α) ∈
        (createTreeItemsGo cv ct gl src unk).1 := by
  intro src
  induction src with
  | nil =>
    intro unk s e hmem
    cases hmem
  | cons s0 rest ih =>
    intro unk s e hmem hct hname
    rcases List.mem_cons.mp hmem with heq | hmem'
    · subst heq
      simp only [createTreeItemsGo, hct, hname, if_true]
      exact List.mem_cons_self _ _
    · cases h : ct s0 with
      | ok o =>
        cases o with
        | some a0 =>
          simp only [createTreeItemsGo, h]
          exact List.mem_cons_of_mem _ (ih unk s e hmem' hct hname)
        | none =>
          simp only [createTreeItemsGo, h]
          exact ih unk s e hmem' hct hname
      | error er =>
        simp only [createTreeItemsGo, h]
        by_cases hname0 : strTruthy (labelOnError gl s0) = true
        · simp only [hname0, if_true]
          exact List.mem_cons_of_mem _ (ih unk s e hmem' hct hname)
        · simp only [Bool.not_eq_true] at hname0
          simp only [hname0, Bool.false_eq_true, if_false]
          by_cases hc : (errTruthy er && unk == none) = true
          · simp only [hc, if_true]
            exact ih _ s e hmem' hct hname
          · simp only [hc, if_false]
            exact ih unk s e hmem' hct hname

theorem createTreeItemsGo_no_aggregate {σ α : Type} (cv : String)
    (ct : σ → Except Nat (Option α)) (gl : σ → Except Nat (Option String)) :
    ∀ (src : List σ) (unk : Option Nat) (x : AzExtTreeItem α),
      x ∈ (createTreeItemsGo cv ct gl src unk).1 → isAggregateNode x = false := by
  intro src
  induction src with
  | nil =>
    intro unk x hx
    cases hx
  | cons s0 rest ih =>
    intro unk x hx
    have hInv : ("Invalid" == "") = false := rfl
    cases h : ct s0 with
    | ok o =>
      cases o with
      | some a0 =>
        simp only [createTreeItemsGo, h] at hx
        rcases List.mem_cons.mp hx with heq | hmem'
        · subst heq; rfl
        · exact ih unk x hmem'
      | none =>
        simp only [createTreeItemsGo, h] at hx
        exact ih unk x hx
    | error er =>
      simp only [createTreeItemsGo, h] at hx
      by_cases hname : strTruthy (labelOnError gl s0) = true
      · simp only [hname, if_true] at hx
        rcases List.mem_cons.mp hx with heq | hmem'
        · subst heq
          simp only [isAggregateNode, hInv, Bool.and_false]
        · exact ih unk x hmem'
      · simp only [Bool.not_eq_true] at hname
        simp only [hname, Bool.false_eq_true, if_false] at hx
        by_cases hc : (errTruthy er && unk == none) = true
        · simp only [hc, if_true] at hx
          exact ih _ x hx
        · simp only [hc, if_false] at hx
          exact ih unk x hx

theorem mem_createTreeItemsGo_mem_out {σ α : Type} (cv : String)
    (ct : σ → Except Nat (Option α)) (gl : σ → Except Nat (Option String))
    (src : List σ) (x : AzExtTreeItem α)
    (hx : x ∈ (createTreeItemsGo cv ct gl src none).1) :
    x ∈ createTreeItemsWithErrorHandling src cv ct gl := by
  unfold createTreeItemsWithErrorHandling
  cases h : (createTreeItemsGo cv ct gl src none).2 with
  | none =>
    simp only [h]
    exact hx
  | some e =>
    by_cases he : errTruthy e = true
    · simp only [h, he, if_true]
      exact List.mem_append_left _ hx
    · simp only [Bool.not_eq_true] at he
      simp only [h, he, Bool.false_eq_true, if_false]
      exact hx

/-- C1 (amended): every element whose `createTreeItem` call throws and
whose `getLabelOnError` yields a truthy label is converted into a
placeholder `InvalidTreeItem` carrying the thrown error and that label,
and every element whose `createTreeItem` succeeds with a defined item
yields its real node in the returned list. -/
theorem C1_per_item_conversion :
    ∀ (σ α : Type) (src : List σ) (cv : String)
      (ct : σ → Except Nat (Option α)) (gl : σ → Except Nat (Option String)),
      (∀ s ∈ src, ∀ a, ct s = Except.ok (some a) →
        AzExtTreeItem.real a ∈ createTreeItemsWithErrorHandling src cv ct gl) ∧
      (∀ s ∈ src, ∀ e l, ct s = Except.error e → labelOnError gl s = some l →
        strTruthy (some l) = true →
        AzExtTreeItem.invalid ⟨l, e, cv, "Invalid"⟩ ∈
          createTreeItemsWithErrorHandling src cv ct gl) := by
  intro σ α src cv ct gl
  constructor
  · intro s hs a hct
    exact mem_createTreeItemsGo_mem_out cv ct gl src _
      (createTreeItemsGo_mem_real cv ct gl src none s a hs hct)
  · intro s hs e l hct hl htruthy
    have h := createTreeItemsGo_mem_invalid cv ct gl src none s e hs hct (by rw [hl]; exact htruthy)
    rw [hl] at h
    exact mem_createTreeItemsGo_mem_out cv ct gl src _ h

/-- Witness for C1: with sources `[1, 2]`, where `1` succeeds with item
`10` and `2` throws error `7` under recoverable label `"L"`, the output
contains the real node `10` and the invalid node for `7`. -/
theorem C1_per_item_conversion_witness :
    AzExtTreeItem.real 10 ∈ createTreeItemsWithErrorHandling [1, 2] "cv" ctMix glName ∧
    AzExtTreeItem.invalid ⟨"L", 7, "cv", "Invalid"⟩ ∈
      createTreeItemsWithErrorHandling [1, 2] "cv" ctMix glName :=
  ⟨(C1_per_item_conversion Nat Nat [1, 2] "cv" ctMix glName).1 1 (by decide) 10 rfl,
   (C1_per_item_conversion Nat Nat [1, 2] "cv" ctMix glName).2 2 (by decide) 7 "L"
      rfl rfl (by decide)⟩

/-- Counterexample for C1 as stated: with two sources both throwing
(errors `1` and `2`) and no recoverable labels, the output is a single
aggregate node carrying only error `1` — the element throwing error `2`
is not converted into any placeholder carrying its error. -/
theorem C1_counterexample :
    ctErr 2 = Except.error 2 ∧
    createTreeItemsWithErrorHandling [1, 2] "cv" ctErr glNone =
      [AzExtTreeItem.invalid ⟨cantShowItemsMsg, 1, "cv", ""⟩] ∧
    ((createTreeItemsWithErrorHandling [1, 2] "cv" ctErr glNone).all
        (fun it => !(carriesError it 2))) = true :=
  ⟨rfl, rfl, rfl⟩

/-- C3: the returned list contains at most one aggregate node (the
`'Some items could not be displayed'` label with the empty description),
and such a node carries exactly the first truthy error thrown by a
source recovering no truthy label. -/
theorem C3_single_aggregate_error :
    ∀ (σ α : Type) (src : List σ) (cv : String)
      (ct : σ → Except Nat (Option α)) (gl : σ → Except Nat (Option String)),
      ((createTreeItemsWithErrorHandling src cv ct gl).countP
        (fun it => isAggregateNode it)) ≤ 1 ∧
      (∀ e, (AzExtTreeItem.invalid ⟨cantShowItemsMsg, e, cv, ""⟩ : AzExtTreeItem α) ∈
          createTreeItemsWithErrorHandling src cv ct gl →
        firstUnknownError ct gl src = some e) := by
  intro σ α src cv ct gl
  have hzero : ((createTreeItemsGo cv ct gl src none).1.countP
      (fun it => isAggregateNode it)) = 0 := by
    rw [List.countP_eq_zero]
    intro x hx
    simp only [createTreeItemsGo_no_aggregate cv ct gl src none x hx, Bool.false_eq_true,
      not_false_eq_true]
  have hAggSelf : isAggregateNode
      (AzExtTreeItem.invalid ⟨cantShowItemsMsg, 0, cv, ""⟩ : AzExtTreeItem α) = true := by
    simp [isAggregateNode]
  constructor
  · unfold createTreeItemsWithErrorHandling
    cases h : (createTreeItemsGo cv ct gl src none).2 with
    | none =>
      simp only [h, hzero]
      omega
    | some e =>
      by_cases he : errTruthy e = true
      · have hagg : (fun (it : AzExtTreeItem α) => isAggregateNode it)
            (AzExtTreeItem.invalid ⟨cantShowItemsMsg, e, cv, ""⟩) = true := by
          simp [isAggregateNode]
        simp only [h, he, if_true, List.countP_append, hzero, List.countP_cons,
          List.countP_nil, hagg, if_true]
        omega
      · simp only [Bool.not_eq_true] at he
        simp only [h, he, Bool.false_eq_true, if_false, hzero]
        omega
  · intro e hmem
    have hnotfst : (AzExtTreeItem.invalid ⟨cantShowItemsMsg, e, cv, ""⟩ : AzExtTreeItem α) ∉
        (createTreeItemsGo cv ct gl src none).1 := by
      intro hx
      have := createTreeItemsGo_no_aggregate cv ct gl src none _ hx
      simp [isAggregateNode] at this
    unfold createTreeItemsWithErrorHandling at hmem
    cases h : (createTreeItemsGo cv ct gl src none).2 with
    | none =>
      simp only [h] at hmem
      exact absurd hmem hnotfst
    | some e0 =>
      by_cases he : errTruthy e0 = true
      · simp only [h, he, if_true] at hmem
        rcases List.mem_append.mp hmem with hfst | hlast
        · exact absurd hfst hnotfst
        · have : e = e0 := by
            have heq := List.mem_singleton.mp hlast
            injection heq with h1
            injection h1
          subst this
          rw [← createTreeItemsGo_snd_none cv ct gl src, h]
      · simp only [Bool.not_eq_true] at he
        simp only [h, he, Bool.false_eq_true, if_false] at hmem
        exact absurd hmem hnotfst

/-- Witness for C3: two unlabeled failures (errors `5` then `7`) produce
one aggregate node, and it carries the first error `5`. -/
theorem C3_single_aggregate_error_witness :
    ((createTreeItemsWithErrorHandling [5, 7] "cv" ctErr glNone).countP
      (fun it => isAggregateNode it)) ≤ 1 ∧
    firstUnknownError ctErr glNone [5, 7] = some 5 :=
  ⟨(C3_single_aggregate_error Nat Nat [5, 7] "cv" ctErr glNone).1,
   (C3_single_aggregate_error Nat Nat [5, 7] "cv" ctErr glNone).2 5 (by decide)⟩

/-- Witness for C5: a missing token and a literal `'Bad credentials'`
failure both take the re-auth path. -/
theorem C5_invalid_token_paths_witness :
    connectToGitHubTokenCheck none false =
      { result := Except.error "No oAuth2 Token."
        authPromptShown := true
        suppressErrorDisplay := true
        requestsMade := 0 } ∧
    getJsonRequestOutcome { url := [], nextLink := none } false
        (ReqResult.failure "Bad credentials" : ReqResult Unit) =
      { result := Except.error "Bad credentials"
        nextLink := none
        suppressErrorDisplay := true
        authPromptShown := true } :=
  ⟨C5_invalid_token_paths.1 none false rfl,
   C5_invalid_token_paths.2 Unit { url := [], nextLink := none } false
      "Bad credentials" (by decide)⟩

theorem createQuickPickFromJsons_append :
    ∀ (l₁ l₂ : List JsObj) (label : String) (d : Option String),
      createQuickPickFromJsons (l₁ ++ l₂) label d =
        createQuickPickFromJsons l₁ label d ++
          createQuickPickFromJsons l₂ label (descParamAfter l₁ label d) := by
  intro l₁
  induction l₁ with
  | nil => intro l₂ label d; rfl
  | cons j rest ih =>
    intro l₂ label d
    by_cases hl : strTruthy (jsonGet j label) = true
    · simp only [List.cons_append, createQuickPickFromJsons, descParamAfter, hl,
        Bool.not_true, Bool.false_eq_true, if_false, List.append_eq]
      rw [ih]
    · simp only [Bool.not_eq_true] at hl
      simp only [List.cons_append, createQuickPickFromJsons, descParamAfter, hl,
        Bool.not_false, if_true, List.append_eq]
      exact ih l₂ label d

theorem createQuickPickFromJsons_falsy_desc :
    ∀ (l : List JsObj) (label : String) (d : Option String),
      strTruthy d = false →
      ∀ p ∈ createQuickPickFromJsons l label d, p.description = "" := by
  intro l
  induction l with
  | nil => intro label d hd p hp; cases hp
  | cons j rest ih =>
    intro label d hd p hp
    by_cases hl : strTruthy (jsonGet j label) = true
    · simp only [createQuickPickFromJsons, hl, Bool.not_true, Bool.false_eq_true,
        if_false, hd, Bool.false_and] at hp
      rcases List.mem_cons.mp hp with heq | hmem
      · subst heq
        simp [hd]
      · exact ih label d hd p hmem
    · simp only [Bool.not_eq_true] at hl
      simp only [createQuickPickFromJsons, hl, Bool.not_false, if_true] at hp
      exact ih label d hd p hp

theorem descParamAfter_cases :
    ∀ (l : List JsObj) (label : String) (d : Option String),
      descParamAfter l label d = d ∨ descParamAfter l label d = none := by
  intro l
  induction l with
  | nil => intro label d; exact Or.inl rfl
  | cons j rest ih =>
    intro label d
    by_cases hl : strTruthy (jsonGet j label) = true
    · by_cases hc : (strTruthy d && !(strTruthy (jsonGet j (d.getD "")))) = true
      · simp only [descParamAfter, hl, Bool.not_true, Bool.false_eq_true, if_false, hc,
          if_true]
        rcases ih label none with h | h
        · exact Or.inr h
        · exact Or.inr h
      · simp only [descParamAfter, hl, Bool.not_true, Bool.false_eq_true, if_false, hc,
          if_false]
        exact ih label d
    · simp only [Bool.not_eq_true] at hl
      simp only [descParamAfter, hl, Bool.not_false, if_true]
      exact ih label d

theorem createQuickPickFromJsons_cleared :
    ∀ (l₂ : List JsObj) (label descName : String) (j : JsObj) (d : Option String),
      (d = some descName ∨ d = none) →
      strTruthy (jsonGet j label) = true →
      jsonGet j descName = none →
      ∀ p ∈ createQuickPickFromJsons (j :: l₂) label d, p.description = "" := by
  intro l₂ label descName j d hd hl hdn p hp
  rcases hd with hd | hd
  · subst hd
    have hfn : strTruthy (jsonGet j ((some descName).getD "")) = false := by
      show strTruthy (jsonGet j descName) = false
      rw [hdn]
      rfl
    have hnone : strTruthy (none : Option String) = false := rfl
    simp only [createQuickPickFromJsons, hl, Bool.not_true, Bool.false_eq_true, if_false,
      hfn, Bool.not_false, Bool.and_true] at hp
    by_cases hds : strTruthy (some descName) = true
    · simp only [hds, if_true, hnone, Bool.false_eq_true, if_false] at hp
      rcases List.mem_cons.mp hp with heq | hmem
      · subst heq
        rfl
      · exact createQuickPickFromJsons_falsy_desc l₂ label none rfl p hmem
    · simp only [Bool.not_eq_true] at hds
      simp only [hds, Bool.false_eq_true, if_false] at hp
      rcases List.mem_cons.mp hp with heq | hmem
      · subst heq
        rfl
      · exact createQuickPickFromJsons_falsy_desc l₂ label (some descName) hds p hmem
  · subst hd
    exact createQuickPickFromJsons_falsy_desc (j :: l₂) label none rfl p hp

theorem createQuickPickFromJsons_length :
    ∀ (l : List JsObj) (label : String) (d : Option String),
      (createQuickPickFromJsons l label d).length =
        l.countP (fun j => strTruthy (jsonGet j label)) := by
  intro l
  induction l with
  | nil => intro label d; rfl
  | cons j rest ih =>
    intro label d
    by_cases hl : strTruthy (jsonGet j label) = true
    · simp only [createQuickPickFromJsons, hl, Bool.not_true, Bool.false_eq_true,
        if_false, List.length_cons, List.countP_cons, if_true, ih]
    · simp only [Bool.not_eq_true] at hl
      simp only [createQuickPickFromJsons, hl, Bool.not_false, if_true,
        List.countP_cons, Bool.false_eq_true, if_false, ih]
      omega

theorem createQuickPickFromJsons_labels :
    ∀ (l : List JsObj) (label : String) (d : Option String) (p : QuickPickItem JsObj),
      p ∈ createQuickPickFromJsons l label d →
      ∃ j ∈ l, strTruthy (jsonGet j label) = true ∧
        p.label = (jsonGet j label).getD "" := by
  intro l
  induction l with
  | nil => intro label d p hp; cases hp
  | cons j rest ih =>
    intro label d p hp
    by_cases hl : strTruthy (jsonGet j label) = true
    · simp only [createQuickPickFromJsons, hl, Bool.not_true, Bool.false_eq_true,
        if_false] at hp
      rcases List.mem_cons.mp hp with heq | hmem
      · subst heq
        exact ⟨j, List.mem_cons_self _ _, hl, rfl⟩
      · rcases ih label _ p hmem with ⟨j', hj', hlab, heq⟩
        exact ⟨j', List.mem_cons_of_mem _ hj', hlab, heq⟩
    · simp only [Bool.not_eq_true] at hl
      simp only [createQuickPickFromJsons, hl, Bool.not_false, if_true] at hp
      rcases ih label d p hp with ⟨j', hj', hlab, heq⟩
      exact ⟨j', List.mem_cons_of_mem _ hj', hlab, heq⟩

/-- C8 (amended): `createQuickPickFromJsons` skips every input object
lacking a truthy value at the `label` property (one pick per truthy-labeled
object, each labeled with its object's label value); and once one object
*with a truthy label* lacks the `description` property, the `description`
parameter is cleared so that pick and every subsequent pick get a blank
description even if their objects have one. -/
theorem C8_createQuickPickFromJsons_behavior :
    ∀ (jsons : List JsObj) (label : String) (desc : Option String) (descName : String),
      (createQuickPickFromJsons jsons label desc).length =
        jsons.countP (fun j => strTruthy (jsonGet j label)) ∧
      (∀ p ∈ createQuickPickFromJsons jsons label desc,
        ∃ j ∈ jsons, strTruthy (jsonGet j label) = true ∧
          p.label = (jsonGet j label).getD "") ∧
      (∀ (l₁ l₂ : List JsObj) (j : JsObj), jsons = l₁ ++ j :: l₂ →
        strTruthy (jsonGet j label) = true →
        jsonGet j descName = none →
        createQuickPickFromJsons jsons label (some descName) =
          createQuickPickFromJsons l₁ label (some descName) ++
            createQuickPickFromJsons (j :: l₂) label
              (descParamAfter l₁ label (some descName)) ∧
        ∀ p ∈ createQuickPickFromJsons (j :: l₂) label
            (descParamAfter l₁ label (some descName)),
          p.description = "") := by
  intro jsons label desc descName
  refine ⟨createQuickPickFromJsons_length jsons label desc,
          createQuickPickFromJsons_labels jsons label desc, ?_⟩
  intro l₁ l₂ j heq hl hdn
  subst heq
  refine ⟨createQuickPickFromJsons_append l₁ (j :: l₂) label (some descName), ?_⟩
  intro p hp
  exact createQuickPickFromJsons_cleared l₂ label descName j
    (descParamAfter l₁ label (some descName))
    (descParamAfter_cases l₁ label (some descName)) hl hdn p hp

/-- Witness for C8: in `[jA, jB, jC]` (where `jB` has a truthy label but
no `desc` property), the output has one pick per truthy-labeled object,
and every pick from `jB` onward has a blank description. -/
theorem C8_createQuickPickFromJsons_behavior_witness :
    (createQuickPickFromJsons [jA, jB, jC] "label" (some "desc")).length =
      ([jA, jB, jC] : List JsObj).countP (fun j => strTruthy (jsonGet j "label")) ∧
    ((createQuickPickFromJsons [jB, jC] "label"
        (descParamAfter [jA] "label" (some "desc"))).all
      (fun p => p.description == "")) = true := by
  constructor
  · exact (C8_createQuickPickFromJsons_behavior [jA, jB, jC] "label"
      (some "desc") "desc").1
  · have h := (C8_createQuickPickFromJsons_behavior [jA, jB, jC] "label"
      (some "desc") "desc").2.2 [jA] [jC] jB rfl rfl rfl
    rw [List.all_eq_true]
    intro p hp
    simpa using h.2 p hp

/-- Counterexample for C8 as stated: the first object lacks the
description property, yet — because it is label-skipped — the parameter
is not cleared and the subsequent pick keeps its description `"x"`. -/
theorem C8_counterexample :
    jsonGet jEmpty "desc" = none ∧
    createQuickPickFromJsons [jEmpty, jA] "label" (some "desc") =
      [{ label := "a", description := "x", data := jA }] :=
  ⟨rfl, rfl⟩

theorem startsWith_length : ∀ {pat s : List Char},
    startsWith pat s = true → pat.length ≤ s.length := by
  intro pat
  induction pat with
  | nil => intro s h; simp
  | cons c p ih =>
    intro s h
    cases s with
    | nil => simp [startsWith] at h
    | cons d t =>
      simp only [startsWith, Bool.and_eq_true] at h
      simpa using ih h.2

theorem startsWith_self_append : ∀ (pat t : List Char),
    startsWith pat (pat ++ t) = true := by
  intro pat t
  induction pat with
  | nil => rfl
  | cons c p ih => simp [startsWith, ih]

theorem mem_of_startsWith : ∀ {pat s : List Char},
    startsWith pat s = true → ∀ c ∈ pat, c ∈ s := by
  intro pat
  induction pat with
  | nil => intro s h c hc; cases hc
  | cons q p ih =>
    intro s h c hc
    cases s with
    | nil => simp [startsWith] at h
    | cons d t =>
      simp only [startsWith, Bool.and_eq_true, beq_iff_eq] at h
      rcases List.mem_cons.mp hc with rfl | hc'
      · rw [h.1]; exact List.mem_cons_self _ _
      · exact List.mem_cons_of_mem _ (ih h.2 c hc')

theorem occursIn_of_startsWith : ∀ {pat s : List Char},
    startsWith pat s = true → occursIn pat s = true := by
  intro pat s h
  cases s with
  | nil => simp [occursIn, firstOccur, h]
  | cons c t => simp [occursIn, firstOccur, h]

theorem occursIn_cons : ∀ {pat t : List Char} (c : Char),
    occursIn pat t = true → occursIn pat (c :: t) = true := by
  intro pat t c h
  by_cases hs : startsWith pat (c :: t) = true
  · simp [occursIn, firstOccur, hs]
  · simp only [occursIn, firstOccur, hs, Bool.false_eq_true, if_false]
    simp only [occursIn] at h
    simpa using h

theorem occursIn_drop : ∀ {pat : List Char} (s : List Char) (m : Nat),
    occursIn pat (s.drop m) = true → occursIn pat s = true := by
  intro pat s
  induction s with
  | nil => intro m h; simpa using h
  | cons c t ih =>
    intro m h
    cases m with
    | zero => simpa using h
    | succ m' =>
      simp only [List.drop_succ_cons] at h
      exact occursIn_cons c (ih m' h)

theorem mem_of_occursIn : ∀ {pat s : List Char},
    occursIn pat s = true → ∀ c ∈ pat, c ∈ s := by
  intro pat s
  induction s with
  | nil =>
    intro h c hc
    cases pat with
    | nil => cases hc
    | cons q p => simp [occursIn, firstOccur, startsWith] at h
  | cons d t ih =>
    intro h c hc
    by_cases hs : startsWith pat (d :: t) = true
    · exact mem_of_startsWith hs c hc
    · simp only [occursIn, firstOccur, hs, Bool.false_eq_true, if_false] at h
      have ht : occursIn pat t = true := by
        simp only [occursIn]
        simpa using h
      exact List.mem_cons_of_mem _ (ih ht c hc)

theorem startsWith_append_left : ∀ (pat x b : List Char),
    pat.length ≤ x.length → startsWith pat (x ++ b) = startsWith pat x := by
  intro pat
  induction pat with
  | nil => intro x b h; rfl
  | cons q p ih =>
    intro x b h
    cases x with
    | nil => simp at h
    | cons d t =>
      simp only [List.cons_append, startsWith, List.append_eq]
      rw [ih t b (by simpa using h)]

theorem startsWith_append_span : ∀ (pat x b : List Char),
    x.length < pat.length → startsWith pat (x ++ b) = true →
    startsWith (pat.drop x.length) b = true := by
  intro pat x
  induction x generalizing pat with
  | nil => intro b h hs; simpa using hs
  | cons d t ih =>
    intro b h hs
    cases pat with
    | nil => simp at h
    | cons q p =>
      simp only [List.cons_append, startsWith, Bool.and_eq_true] at hs
      simp only [List.length_cons, List.drop_succ_cons]
      exact ih p b (by simpa using h) hs.2

theorem startsWith_boundary : ∀ (pat x w : List Char) (c : Char),
    c ∉ pat → occursIn pat x = false → startsWith pat (x ++ c :: w) = false := by
  intro pat x w c hc hx
  by_contra hcontra
  simp only [Bool.not_eq_false] at hcontra
  by_cases hlen : pat.length ≤ x.length
  · rw [startsWith_append_left pat x _ hlen] at hcontra
    rw [occursIn_of_startsWith hcontra] at hx
    cases hx
  · push_neg at hlen
    have hspan := startsWith_append_span pat x (c :: w) hlen hcontra
    cases hd : pat.drop x.length with
    | nil =>
      have hlen2 : (pat.drop x.length).length = 0 := by rw [hd]; rfl
      rw [List.length_drop] at hlen2
      omega
    | cons q tl =>
      rw [hd] at hspan
      simp only [startsWith, Bool.and_eq_true, beq_iff_eq] at hspan
      have hqmem : q ∈ pat.drop x.length := by
        rw [hd]; exact List.mem_cons_self _ _
      exact hc (hspan.1 ▸ List.mem_of_mem_drop hqmem)

theorem firstOccur_append_eq : ∀ (pat a b : List Char),
    startsWith pat b = true →
    (∀ m, m < a.length → startsWith pat (a.drop m ++ b) = false) →
    firstOccur pat (a ++ b) = some a.length := by
  intro pat a
  induction a with
  | nil =>
    intro b hb hno
    cases b with
    | nil => simp [firstOccur, hb]
    | cons d t => simp [firstOccur, hb]
  | cons d t ih =>
    intro b hb hno
    have h0 : startsWith pat (d :: (t ++ b)) = false := by
      have h := hno 0 (by simp)
      simpa using h
    simp only [List.cons_append, firstOccur, List.append_eq, h0, Bool.false_eq_true,
      if_false]
    have hrec := ih b hb (fun m hm => by
      have h := hno (m + 1) (by simp; omega)
      simpa using h)
    rw [hrec]
    simp

theorem firstOccur_comma (p t : List Char) (hp : occursIn ", ".toList p = false) :
    firstOccur ", ".toList (p ++ (", ".toList ++ t)) = some p.length := by
  apply firstOccur_append_eq
  · exact startsWith_self_append _ _
  · intro m hm
    by_cases hlen : (", ".toList).length ≤ (p.drop m).length
    · rw [startsWith_append_left _ _ _ hlen]
      by_contra hc
      simp only [Bool.not_eq_false] at hc
      have h := occursIn_drop p m (occursIn_of_startsWith hc)
      rw [h] at hp
      cases hp
    · push_neg at hlen
      by_contra hc
      simp only [Bool.not_eq_false] at hc
      have hspan := startsWith_append_span _ _ _ hlen hc
      have hsep2 : (", ".toList).length = 2 := rfl
      have hxlen : (p.drop m).length = 1 := by
        rw [List.length_drop] at *
        omega
      rw [hxlen] at hspan
      have hfalse : startsWith ((", ".toList).drop 1) (", ".toList ++ t) = false := rfl
      rw [hfalse] at hspan
      cases hspan

theorem firstOccur_single (c : Char) (p t : List Char) (hc : c ∉ p) :
    firstOccur [c] (p ++ c :: t) = some p.length := by
  apply firstOccur_append_eq
  · simp [startsWith]
  · intro m hm
    cases hx : p.drop m with
    | nil =>
      have h0 : (p.drop m).length = 0 := by rw [hx]; rfl
      rw [List.length_drop] at h0
      omega
    | cons d tl =>
      have hd : d ∈ p := List.mem_of_mem_drop (by rw [hx]; exact List.mem_cons_self _ _)
      have hne : (c == d) = false := by
        simp only [beq_eq_false_iff_ne, ne_eq]
        intro h
        subst h
        exact hc hd
      simp [startsWith, hne]

theorem firstOccur_head (c : Char) (t : List Char) : firstOccur [c] (c :: t) = some 0 := by
  simp [firstOccur, startsWith]

theorem startsWith_relative_lt (w : List Char) :
    startsWith relative ('<' :: w) = false := rfl

theorem startsWith_relative_gt (w : List Char) :
    startsWith relative ('>' :: w) = false := rfl

theorem startsWith_relative_semi (w : List Char) :
    startsWith relative (';' :: w) = false := rfl

theorem startsWith_relative_space (w : List Char) :
    startsWith relative (' ' :: w) = false := rfl

theorem firstOccur_relative (U w : List Char) (hU : occursIn relative U = false) :
    firstOccur relative (('<' :: U ++ ['>', ';', ' ']) ++ (relative ++ w)) =
      some (U.length + 4) := by
  have hlen4 : ('<' :: U ++ ['>', ';', ' ']).length = U.length + 4 := by simp
  rw [← hlen4]
  apply firstOccur_append_eq
  · exact startsWith_self_append _ _
  · intro m hm
    rw [hlen4] at hm
    rcases Nat.eq_zero_or_pos m with rfl | hm0
    · simp only [List.drop_zero, List.cons_append]
      exact startsWith_relative_lt _
    · obtain ⟨m', rfl⟩ : ∃ m', m = m' + 1 := ⟨m - 1, by omega⟩
      have hdrop : ('<' :: U ++ ['>', ';', ' ']).drop (m' + 1) =
          U.drop m' ++ (['>', ';', ' '] : List Char).drop (m' - U.length) := by
        have h1 : ('<' :: U ++ ['>', ';', ' ']).drop (m' + 1) =
            (U ++ ['>', ';', ' ']).drop m' := by
          simp [List.cons_append]
        rw [h1, List.drop_append_eq_append_drop]
      rw [hdrop]
      by_cases hm1 : m' < U.length
      · have h0 : m' - U.length = 0 := by omega
        rw [h0, List.drop_zero, List.append_assoc]
        apply startsWith_boundary
        · decide
        · by_contra h'
          simp only [Bool.not_eq_false] at h'
          have h'' := occursIn_drop U m' h'
          rw [h''] at hU
          cases hU
      · have hU0 : U.drop m' = [] := List.drop_eq_nil_of_le (by omega)
        rw [hU0, List.nil_append]
        have h3 : m' - U.length = 0 ∨ m' - U.length = 1 ∨ m' - U.length = 2 := by omega
        rcases h3 with h | h | h <;> rw [h]
        · exact startsWith_relative_gt _
        · exact startsWith_relative_semi _
        · exact startsWith_relative_space _

theorem jsSubstringL_eq (s : List Char) (a b : Nat) (hab : a ≤ b) (hb : b ≤ s.length) :
    jsSubstringL s (a : Int) (b : Int) = (s.drop a).take (b - a) := by
  unfold jsSubstringL
  have h1 : (max 0 (min (a : Int) ((s.length : Nat) : Int))).toNat = a := by omega
  have h2 : (max 0 (min (b : Int) ((s.length : Nat) : Int))).toNat = b := by omega
  simp only [h1, h2, Nat.min_eq_left hab, Nat.max_eq_right hab]

theorem parseLinkEntry_render (U N : List Char)
    (hrel : occursIn relative U = false) (hgt : '>' ∉ U) :
    parseLinkEntry (renderEntry (U, N)) = (N, U) := by
  have hshape1 : renderEntry (U, N) =
      '<' :: (U ++ ['>', ';', ' ', 'r', 'e', 'l', '=', '"'] ++ (N ++ ['"'])) := by
    simp [renderEntry]
  have hshape2 : renderEntry (U, N) =
      ('<' :: U) ++ ('>' :: ([';', ' ', 'r', 'e', 'l', '=', '"'] ++ (N ++ ['"']))) := by
    simp [renderEntry]
  have hshape3 : renderEntry (U, N) =
      ('<' :: U ++ ['>', ';', ' ']) ++ (relative ++ ('"' :: (N ++ ['"']))) := by
    simp [renderEntry, relative]
  have hlt : firstOccur ['<'] (renderEntry (U, N)) = some 0 := by
    rw [hshape1]
    exact firstOccur_head '<' _
  have hgtOcc : firstOccur ['>'] (renderEntry (U, N)) = some (U.length + 1) := by
    rw [hshape2]
    have h := firstOccur_single '>' ('<' :: U)
      ([';', ' ', 'r', 'e', 'l', '=', '"'] ++ (N ++ ['"'])) (by
        intro hmem
        rcases List.mem_cons.mp hmem with h | h
        · exact absurd h (by decide)
        · exact hgt h)
    simpa using h
  have hrelOcc : firstOccur relative (renderEntry (U, N)) = some (U.length + 4) := by
    rw [hshape3]
    exact firstOccur_relative U _ hrel
  have hlen : (renderEntry (U, N)).length = U.length + N.length + 10 := by
    simp [renderEntry]
    omega
  have hidx1 : jsIndexOfL (renderEntry (U, N)) relative = ((U.length + 4 : Nat) : Int) := by
    simp [jsIndexOfL, hrelOcc]
  have hidx2 : jsIndexOfL (renderEntry (U, N)) "<".toList = ((0 : Nat) : Int) := by
    simp [jsIndexOfL, hlt]
  have hidx3 : jsIndexOfL (renderEntry (U, N)) ">".toList = ((U.length + 1 : Nat) : Int) := by
    simp [jsIndexOfL, hgtOcc]
  unfold parseLinkEntry
  rw [hidx1, hidx2, hidx3]
  have ha1 : ((U.length + 4 : Nat) : Int) + (relative.length : Int) + 1 =
      ((U.length + 9 : Nat) : Int) := by
    have h4 : (relative.length : Int) = 4 := rfl
    rw [h4]
    push_cast
    ring
  have ha2 : (((renderEntry (U, N)).length : Nat) : Int) - 1 =
      ((U.length + 9 + N.length : Nat) : Int) := by
    rw [hlen]
    push_cast
    ring
  have ha3 : ((0 : Nat) : Int) + 1 = ((1 : Nat) : Int) := by norm_num
  rw [ha1, ha2, ha3]
  rw [jsSubstringL_eq (renderEntry (U, N)) (U.length + 9) (U.length + 9 + N.length)
    (by omega) (by rw [hlen]; omega)]
  rw [jsSubstringL_eq (renderEntry (U, N)) 1 (U.length + 1)
    (by omega) (by rw [hlen]; omega)]
  have hd1 : (renderEntry (U, N)).drop (U.length + 9) = N ++ ['"'] := by
    have hpre : (('<' :: U ++ ['>', ';', ' ', 'r', 'e', 'l', '=', '"']) : List Char).length =
        U.length + 9 := by simp
    rw [show renderEntry (U, N) =
      ('<' :: U ++ ['>', ';', ' ', 'r', 'e', 'l', '=', '"']) ++ (N ++ ['"']) from rfl,
      ← hpre, List.drop_left]
  have hd2 : (renderEntry (U, N)).drop 1 =
      U ++ ['>', ';', ' ', 'r', 'e', 'l', '=', '"'] ++ (N ++ ['"']) := by
    rw [hshape1]
    rfl
  rw [hd1, hd2]
  have harith1 : U.length + 9 + N.length - (U.length + 9) = N.length := by omega
  have harith2 : U.length + 1 - 1 = U.length := by omega
  rw [harith1, harith2, List.take_left]
  have ht2 : (U ++ (['>', ';', ' ', 'r', 'e', 'l', '=', '"'] ++ (N ++ ['"']))).take U.length =
      U := List.take_left U _
  rw [List.append_assoc, ht2]

theorem joinSep_length_ge :
    ∀ (parts : List (List Char)), parts.length ≤ (joinSep ", ".toList parts).length + 1 := by
  intro parts
  induction parts with
  | nil => simp [joinSep]
  | cons p rest ih =>
    cases rest with
    | nil => simp [joinSep]
    | cons q rest' =>
      have hsep : (", ".toList).length = 2 := rfl
      simp only [joinSep, List.length_cons, List.length_append, hsep] at *
      omega

theorem splitListAux_joinSep :
    ∀ (parts : List (List Char)) (fuel : Nat),
      parts ≠ [] → parts.length ≤ fuel + 1 →
      (∀ p ∈ parts, (',' : Char) ∉ p) →
      splitListAux ", ".toList fuel (joinSep ", ".toList parts) = parts := by
  intro parts
  induction parts with
  | nil => intro fuel hne hlen hcomma; exact absurd rfl hne
  | cons p rest ih =>
    intro fuel hne hlen hcomma
    cases rest with
    | nil =>
      have hno : firstOccur ", ".toList p = none := by
        cases hfo : firstOccur ", ".toList p with
        | none => rfl
        | some n =>
          have hocc : occursIn ", ".toList p = true := by
            unfold occursIn
            rw [hfo]
            rfl
          have hmem := mem_of_occursIn hocc ',' (by decide)
          exact absurd hmem (hcomma p (List.mem_cons_self _ _))
      cases fuel with
      | zero => rfl
      | succ f => simp only [joinSep, splitListAux, hno]
    | cons q rest' =>
      cases fuel with
      | zero =>
        simp only [List.length_cons] at hlen
        omega
      | succ f =>
        have hpcomma : (',' : Char) ∉ p := hcomma p (List.mem_cons_self _ _)
        have hpOcc : occursIn ", ".toList p = false := by
          cases hfo : occursIn ", ".toList p with
          | false => rfl
          | true =>
            have hmem := mem_of_occursIn hfo ',' (by decide)
            exact absurd hmem hpcomma
        have hjoin : joinSep ", ".toList (p :: q :: rest') =
            p ++ (", ".toList ++ joinSep ", ".toList (q :: rest')) := by
          simp [joinSep, List.append_assoc]
        rw [hjoin]
        have hfo := firstOccur_comma p (joinSep ", ".toList (q :: rest')) hpOcc
        simp only [splitListAux, hfo]
        rw [List.take_left]
        have hgroup : p ++ (", ".toList ++ joinSep ", ".toList (q :: rest')) =
            (p ++ ", ".toList) ++ joinSep ", ".toList (q :: rest') :=
          (List.append_assoc _ _ _).symm
        rw [hgroup]
        have hplen : (p ++ ", ".toList).length = p.length + (", ".toList).length := by
          simp
        rw [List.drop_left' hplen]
        have hrec := ih f (by simp) (by
          simp only [List.length_cons] at hlen ⊢
          omega) (by
          intro x hx
          exact hcomma x (List.mem_cons_of_mem _ hx))
        rw [hrec]

theorem splitList_joinSep (parts : List (List Char)) (hne : parts ≠ [])
    (hcomma : ∀ p ∈ parts, (',' : Char) ∉ p) :
    splitList ", ".toList (joinSep ", ".toList parts) = parts := by
  unfold splitList
  rw [if_neg (by decide)]
  apply splitListAux_joinSep parts _ hne ?hlen hcomma
  case hlen =>
    have h := joinSep_length_ge parts
    omega

theorem parseLinkHeader_render (entries : List (List Char × List Char))
    (hne : entries ≠ [])
    (hwf : ∀ p ∈ entries, occursIn relative p.1 = false ∧ '>' ∉ p.1 ∧
      (',' : Char) ∉ p.1 ∧ (',' : Char) ∉ p.2) :
    parseLinkHeaderToGitHubLinkObject (renderLinkHeader entries) =
      entries.map (fun p => (p.2, p.1)) := by
  unfold parseLinkHeaderToGitHubLinkObject renderLinkHeader
  rw [splitList_joinSep (entries.map renderEntry) (by simpa using hne) (by
    intro part hpart
    rcases List.mem_map.mp hpart with ⟨e, he, rfl⟩
    rcases hwf e he with ⟨h1, h2, h3, h4⟩
    intro hmem
    simp [renderEntry] at hmem
    rcases hmem with h | h
    · exact h3 h
    · exact h4 h)]
  rw [List.map_map]
  apply List.map_congr_left
  intro e he
  rcases hwf e he with ⟨h1, h2, h3, h4⟩
  have h := parseLinkEntry_render e.1 e.2 h1 h2
  simpa using h

theorem chainUrl_length (i : Nat) : (chainUrl i).length = i + 1 := by
  simp [chainUrl]

theorem chainUrl_mem {c : Char} {i : Nat} (h : c ∈ chainUrl i) : c = 'p' ∨ c = 'x' := by
  simp only [chainUrl, List.mem_append, List.mem_replicate] at h
  rcases h with h | h
  · left
    simpa using h
  · right
    exact h.2

theorem chainUrl_wf (i : Nat) :
    occursIn relative (chainUrl i) = false ∧ '>' ∉ chainUrl i ∧
      (',' : Char) ∉ chainUrl i := by
  refine ⟨?_, ?_, ?_⟩
  · cases hfo : occursIn relative (chainUrl i) with
    | false => rfl
    | true =>
      have hmem := mem_of_occursIn hfo 'r' (by decide)
      rcases chainUrl_mem hmem with h | h <;> exact absurd h (by decide)
  · intro h
    rcases chainUrl_mem h with h' | h' <;> exact absurd h' (by decide)
  · intro h
    rcases chainUrl_mem h with h' | h' <;> exact absurd h' (by decide)

theorem chainServer_eval (pages : List (List JsObj)) (i : Nat) (hi : i < pages.length) :
    chainServer pages (chainUrl i) =
      ReqResult.success
        { link := some (renderLinkHeader
            (if i + 1 < pages.length then [(chainUrl (i + 1), "next".toList)]
             else [(chainUrl 0, "first".toList)]))
          body := pages[i] } := by
  unfold chainServer
  have hidx : (chainUrl i).length - 1 = i := by
    rw [chainUrl_length]
    omega
  simp only [hidx, beq_self_eq_true, if_true, List.getElem?_eq_getElem hi]

theorem parse_next_singleton (u : List Char) (hwf : occursIn relative u = false ∧
    '>' ∉ u ∧ (',' : Char) ∉ u) :
    jsObjGet (parseLinkHeaderToGitHubLinkObject
      (renderLinkHeader [(u, "next".toList)])) "next".toList = some u := by
  rw [parseLinkHeader_render [(u, "next".toList)] (by simp) (by
    intro p hp
    simp only [List.mem_singleton] at hp
    subst hp
    exact ⟨hwf.1, hwf.2.1, hwf.2.2, (by decide : (',' : Char) ∉ "next".toList)⟩)]
  simp [jsObjGet]

theorem parse_first_singleton (u : List Char) (hwf : occursIn relative u = false ∧
    '>' ∉ u ∧ (',' : Char) ∉ u) :
    jsObjGet (parseLinkHeaderToGitHubLinkObject
      (renderLinkHeader [(u, "first".toList)])) "next".toList = none := by
  rw [parseLinkHeader_render [(u, "first".toList)] (by simp) (by
    intro p hp
    simp only [List.mem_singleton] at hp
    subst hp
    exact ⟨hwf.1, hwf.2.1, hwf.2.2, (by decide : (',' : Char) ∉ "first".toList)⟩)]
  have hne : (("first".toList : List Char) == "next".toList) = false := rfl
  simp [jsObjGet, hne]

theorem renderLinkHeader_singleton_isEmpty (p : List Char × List Char) :
    (renderLinkHeader [p]).isEmpty = false := by
  simp [renderLinkHeader, joinSep, renderEntry]

theorem gitHubReposLoop_chain_last (pages : List (List JsObj))
    (startTime timeoutMs : Nat) (clock : List Nat) (i : Nat) (acc : List JsObj)
    (nl : Option (List Char)) (hi : i < pages.length) (hlast : i + 1 = pages.length) :
    gitHubReposLoop (chainServer pages) startTime timeoutMs clock
        { url := chainUrl i, nextLink := nl } acc =
      Except.ok (acc ++ (pages.drop i).flatten,
        { url := chainUrl (pages.length - 1), nextLink := none }) := by
  have hse := chainServer_eval pages i hi
  have hnotlt : ¬(i + 1 < pages.length) := by omega
  have hdrop : pages.drop i = [pages[i]] := by
    rw [List.drop_eq_getElem_cons hi, List.drop_eq_nil_of_le (by omega)]
  have hi1 : pages.length - 1 = i := by omega
  rw [gitHubReposLoop]
  simp only [hse, getJsonRequestOutcome, if_neg hnotlt,
    renderLinkHeader_singleton_isEmpty, Bool.false_eq_true, if_false,
    parse_first_singleton (chainUrl 0) (chainUrl_wf 0), charsTruthy, hdrop, hi1]
  simp

theorem gitHubReposLoop_chain (pages : List (List JsObj)) (startTime timeoutMs : Nat) :
    ∀ (clock : List Nat) (i : Nat) (acc : List JsObj) (nl : Option (List Char)),
      i < pages.length →
      pages.length - i ≤ clock.length + 1 →
      (∀ t ∈ clock, startTime + timeoutMs > t) →
      gitHubReposLoop (chainServer pages) startTime timeoutMs clock
          { url := chainUrl i, nextLink := nl } acc =
        Except.ok (acc ++ (pages.drop i).flatten,
          { url := chainUrl (pages.length - 1), nextLink := none }) := by
  intro clock
  induction clock with
  | nil =>
    intro i acc nl hi hlen hclock
    have hlast : i + 1 = pages.length := by
      simp only [List.length_nil] at hlen
      omega
    exact gitHubReposLoop_chain_last pages startTime timeoutMs [] i acc nl hi hlast
  | cons t rest ih =>
    intro i acc nl hi hlen hclock
    by_cases hlast : i + 1 < pages.length
    · have hse := chainServer_eval pages i hi
      have hwfnext := chainUrl_wf (i + 1)
      have hne : (chainUrl (i + 1)).isEmpty = false := by simp [chainUrl]
      have ht : startTime + timeoutMs > t := hclock t (List.mem_cons_self _ _)
      rw [gitHubReposLoop]
      simp only [hse, getJsonRequestOutcome, if_pos hlast,
        renderLinkHeader_singleton_isEmpty, Bool.false_eq_true, if_false,
        parse_next_singleton (chainUrl (i + 1)) hwfnext, charsTruthy, hne,
        Bool.not_false, if_true, Option.getD_some, ht]
      rw [ih (i + 1) (acc ++ pages[i]) (some (chainUrl (i + 1))) hlast (by
        simp only [List.length_cons] at hlen ⊢
        omega) (fun t' ht' => hclock t' (List.mem_cons_of_mem _ ht'))]
      have hdrop : pages.drop i = pages[i] :: pages.drop (i + 1) :=
        List.drop_eq_getElem_cons hi
      rw [hdrop, List.flatten_cons, ← List.append_assoc]
    · have hlast' : i + 1 = pages.length := by omega
      exact gitHubReposLoop_chain_last pages startTime timeoutMs (t :: rest) i acc nl hi hlast'

theorem renderLinkHeader_isEmpty_false (entries : List (List Char × List Char))
    (hne : entries ≠ []) : (renderLinkHeader entries).isEmpty = false := by
  cases entries with
  | nil => exact absurd rfl hne
  | cons e rest =>
    cases rest with
    | nil => exact renderLinkHeader_singleton_isEmpty e
    | cons e2 rest2 => simp [renderLinkHeader, joinSep, renderEntry]

/-- C4 (amended): the Link-header pagination chain, under the side
conditions the parser needs — every entry `<URL>; rel="NAME"` of a header
(entries joined by `', '`) is mapped to the assignment `NAME -> URL`
provided no URL contains the substring `'rel='`, the character `'>'` or
the character `','` and no NAME contains `','`; `getJsonRequest` stores
the header's `rel="next"` URL as `requestOptions.nextLink`; and the
repos-loop of `getGitHubReposQuickPicks` keeps requesting the stored
`nextLink`, accumulating every page of a chained server, as long as the
next link exists and the observed clock stays within the timeout. -/
theorem C4_link_header_pagination :
    (∀ entries : List (List Char × List Char), entries ≠ [] →
      (∀ p ∈ entries, occursIn relative p.1 = false ∧ '>' ∉ p.1 ∧
        (',' : Char) ∉ p.1 ∧ (',' : Char) ∉ p.2) →
      parseLinkHeaderToGitHubLinkObject (renderLinkHeader entries) =
        entries.map (fun p => (p.2, p.1))) ∧
    (∀ (β : Type) (st : RequestState) (suppress : Bool) (body : β)
      (entries : List (List Char × List Char)), entries ≠ [] →
      (∀ p ∈ entries, occursIn relative p.1 = false ∧ '>' ∉ p.1 ∧
        (',' : Char) ∉ p.1 ∧ (',' : Char) ∉ p.2) →
      (getJsonRequestOutcome st suppress (ReqResult.success
          { link := some (renderLinkHeader entries), body := body })).nextLink =
        jsObjGet (entries.map (fun p => (p.2, p.1))) "next".toList) ∧
    (∀ (pages : List (List JsObj)) (startTime timeoutMs : Nat) (clock : List Nat),
      pages ≠ [] →
      pages.length ≤ clock.length + 1 →
      (∀ t ∈ clock, startTime + timeoutMs > t) →
      gitHubReposLoop (chainServer pages) startTime timeoutMs clock
          { url := chainUrl 0, nextLink := none } [] =
        Except.ok (pages.flatten,
          { url := chainUrl (pages.length - 1), nextLink := none })) := by
  refine ⟨?_, ?_, ?_⟩
  · intro entries hne hwf
    exact parseLinkHeader_render entries hne hwf
  · intro β st suppress body entries hne hwf
    simp only [getJsonRequestOutcome]
    rw [renderLinkHeader_isEmpty_false entries hne]
    simp only [Bool.false_eq_true, if_false]
    rw [parseLinkHeader_render entries hne hwf]
  · intro pages startTime timeoutMs clock hne hlen hclock
    have hpos : 0 < pages.length := List.length_pos.mpr hne
    have h := gitHubReposLoop_chain pages startTime timeoutMs clock 0 [] none hpos
      (by omega) hclock
    simpa using h

/-- Witness for C4: a single well-formed entry parses to `next -> u` and
is stored as `nextLink`, and a one-page chain is fully accumulated. -/
theorem C4_link_header_pagination_witness :
    parseLinkHeaderToGitHubLinkObject (renderLinkHeader [("u".toList, "next".toList)]) =
      [("next".toList, "u".toList)] ∧
    (getJsonRequestOutcome { url := [], nextLink := none } false
        (ReqResult.success { link := some (renderLinkHeader [("u".toList, "next".toList)])
                             body := (0 : Nat) })).nextLink =
      jsObjGet [("next".toList, "u".toList)] "next".toList ∧
    gitHubReposLoop (chainServer [[jA]]) 0 10000 []
        { url := chainUrl 0, nextLink := none } [] =
      Except.ok ([[jA]].flatten, { url := chainUrl 0, nextLink := none }) := by
  have hwf : ∀ p ∈ [(("u".toList : List Char), ("next".toList : List Char))],
      occursIn relative p.1 = false ∧ '>' ∉ p.1 ∧
        (',' : Char) ∉ p.1 ∧ (',' : Char) ∉ p.2 := by
    intro p hp
    simp only [List.mem_singleton] at hp
    subst hp
    exact ⟨by decide, by decide, by decide, by decide⟩
  refine ⟨?_, ?_, ?_⟩
  · exact C4_link_header_pagination.1 [("u".toList, "next".toList)] (by simp) hwf
  · exact C4_link_header_pagination.2.1 Nat { url := [], nextLink := none } false 0
      [("u".toList, "next".toList)] (by simp) hwf
  · exact C4_link_header_pagination.2.2 [[jA]] 0 10000 [] (by simp) (by simp)
      (fun t ht => absurd ht (List.not_mem_nil t))

/-- Counterexample for C4 as stated: the URL `http://a/?rel=x` contains
`rel=`, so the header `<http://a/?rel=x>; rel="next"` — which is exactly
of the claimed `<URL>; rel="NAME"` form — is parsed into a garbled key
and `next` is not mapped to the URL. -/
theorem C4_counterexample :
    renderLinkHeader [("http://a/?rel=x".toList, "next".toList)] =
      "<http://a/?rel=x>; rel=\"next\"".toList ∧
    jsObjGet (parseLinkHeaderToGitHubLinkObject
      "<http://a/?rel=x>; rel=\"next\"".toList) "next".toList = none := by
  exact ⟨rfl, rfl⟩
